import Mathlib

/-!
# Verification of the hpcflow element/run resolution and scheduling pipeline

Shallow embedding of the core data model and operations of the hpcflow
workflow engine: the element resolver (`resolve_element_data_indices`,
`initialise_EARs`), the dependency cache (`DependencyCache.build`), the
jobscript partitioner (`group_resource_map_into_jobscripts`), the
transactional persistence protocol (`batch_update`), and the two parameter
store backends (JSON and Zarr).
-/

namespace Hpcflow

/-! ## Jobscript partitioner

`group_resource_map_into_jobscripts` lives in `hpcflow.sdk.submission.jobscript`.
Modelled from the spec: the implementation module is not part of the provided
sources (only its unit test and its callers are), so the partitioner is
modelled from spec section 4.3 stage 2: walk actions top-to-bottom; for each
action, form jobscripts per resource-group value; a jobscript holds, for each
element, a run of actions that is contiguous in action order once sentinel
cells are skipped; jobscripts are emitted in increasing action-index order of
their first member action; sentinel cells (-1) are skipped entirely.  The
worked examples of spec section 8 are treated as the specification of record
for the exact grouping and tie-break policy.
-/

/-- A resource map: rows are actions, columns are elements, cell values are
resource-group indices, `-1` is the sentinel for "this action does not run
for this element". -/
abbrev ResourceMap := List (List Int)

/-- The sentinel value marking cells where an action does not run. -/
def noneVal : Int := -1

/-- Cell lookup, returning the sentinel when out of range. -/
def cellAt (m : ResourceMap) (act elem : Nat) : Int :=
  (m.getD act []).getD elem noneVal

/-- Insert into a sorted list of Ints, keeping it sorted (ascending). -/
def insertSortedInt (x : Int) : List Int → List Int
  | [] => [x]
  | y :: ys => if x ≤ y then x :: y :: ys else y :: insertSortedInt x ys

/-- Ascending insertion sort over Ints. -/
def sortInts : List Int → List Int
  | [] => []
  | x :: xs => insertSortedInt x (sortInts xs)

/-- Collapse adjacent duplicates (applied to sorted lists this gives the
sorted distinct values, mirroring numpy's `unique`). -/
def dedupAdj : List Int → List Int
  | [] => []
  | [x] => [x]
  | x :: y :: rest => if x = y then dedupAdj (y :: rest) else x :: dedupAdj (y :: rest)

/-- The distinct non-sentinel resource-group values of one action row, in
ascending order (the order in which jobscripts are opened at one anchor
action). -/
def rowResources (row : List Int) : List Int :=
  dedupAdj (sortInts (row.filter (fun r => r ≠ noneVal)))

/-- Allocation state: the set of (action, element) cells already captured by
an emitted jobscript. -/
abbrev Alloc := List (Nat × Nat)

/-- Find, walking the given action indices in order for a fixed element, the
first cell that is not a sentinel and not already allocated; stop (yielding
nothing) at the first allocated cell, since an element cannot rejoin a
jobscript across an already-captured action. -/
def findStart (m : ResourceMap) (alloc : Alloc) (elem : Nat) :
    List Nat → Option (Nat × Int)
  | [] => none
  | a :: rest =>
    let c := cellAt m a elem
    if c = noneVal then findStart m alloc elem rest
    else if (a, elem) ∈ alloc then none
    else some (a, c)

/-- Extend a run downwards through the given action indices: sentinel cells
are skipped, cells holding the same resource group (and not yet allocated)
are appended, and the first other cell closes the run. -/
def extendRun (m : ResourceMap) (alloc : Alloc) (r : Int) (elem : Nat) :
    List Nat → List Nat
  | [] => []
  | a :: rest =>
    let c := cellAt m a elem
    if c = noneVal then extendRun m alloc r elem rest
    else if c = r ∧ (a, elem) ∉ alloc then a :: extendRun m alloc r elem rest
    else []

/-- Action indices from `anchor` (inclusive) to `numActs` (exclusive). -/
def actsFrom (anchor numActs : Nat) : List Nat :=
  (List.range numActs).drop anchor

/-- The contiguous run of actions (sentinels skipped) that element `elem`
contributes to a jobscript opened at `anchor` for resource group `r`; empty
when the element's first available cell at or below the anchor belongs to a
different resource group. -/
def runFor (m : ResourceMap) (alloc : Alloc) (r : Int) (anchor numActs elem : Nat) :
    List Nat :=
  match findStart m alloc elem (actsFrom anchor numActs) with
  | none => []
  | some (s, c) =>
    if c = r then s :: extendRun m alloc r elem (actsFrom (s + 1) numActs)
    else []

/-- One jobscript descriptor: its shared resource group and, per member
element (in the order elements first appear), the actions it runs. -/
structure Jobscript where
  resources : Int
  elements : List (Nat × List Nat)
deriving DecidableEq, Repr

/-- Collect the members of the jobscript opened at `anchor` for resource
group `r`, allocating the captured cells as we go. -/
def collectJobscript (m : ResourceMap) (r : Int) (anchor numActs : Nat) :
    List Nat → Alloc → (List (Nat × List Nat)) × Alloc
  | [], alloc => ([], alloc)
  | e :: es, alloc =>
    let run := runFor m alloc r anchor numActs e
    let alloc2 := alloc ++ run.map (fun a => (a, e))
    let (rest, alloc3) := collectJobscript m r anchor numActs es alloc2
    if run = [] then (rest, alloc3) else ((e, run) :: rest, alloc3)

/-- Emit the jobscripts opened at one anchor action, one per resource group
present in that row (ascending group value), skipping groups that contribute
no element. -/
def anchorJobscripts (m : ResourceMap) (anchor numActs numElems : Nat) :
    List Int → Alloc → List Jobscript × Alloc
  | [], alloc => ([], alloc)
  | r :: rs, alloc =>
    let (elems, alloc2) :=
      collectJobscript m r anchor numActs (List.range numElems) alloc
    let (rest, alloc3) := anchorJobscripts m anchor numActs numElems rs alloc2
    if elems = [] then (rest, alloc3)
    else (⟨r, elems⟩ :: rest, alloc3)

/-- Walk all anchor actions top-to-bottom. -/
def allAnchors (m : ResourceMap) (numActs numElems : Nat) :
    List Nat → Alloc → List Jobscript
  | [], _ => []
  | a :: rest, alloc =>
    let (js, alloc2) :=
      anchorJobscripts m a numActs numElems (rowResources (m.getD a [])) alloc
    js ++ allAnchors m numActs numElems rest alloc2

/-- Modelled from the spec: partition a per-(action, element) resource-group
matrix into jobscripts (spec section 4.3 stage 2; worked examples of spec
section 8 are the specification of record). -/
def group_resource_map_into_jobscripts (m : ResourceMap) : List Jobscript :=
  let numActs := m.length
  let numElems := (m.map List.length).foldr max 0
  allAnchors m numActs numElems (List.range numActs) []

/-- The spec section 8 worked-example matrix. -/
def exampleResourceMap : ResourceMap :=
  [[1, 1, 1, 2, -1, 2, 4, -1, 1],
   [1, 3, 1, 2, 2, 2, 4, 4, 1],
   [1, 1, 3, 2, 2, 2, 4, -1, 1]]

/-- The six jobscripts the spec requires for `exampleResourceMap`. -/
def expectedExampleJobscripts : List Jobscript :=
  [⟨1, [(0, [0, 1, 2]), (1, [0]), (2, [0, 1]), (8, [0, 1, 2])]⟩,
   ⟨2, [(3, [0, 1, 2]), (4, [1, 2]), (5, [0, 1, 2])]⟩,
   ⟨4, [(6, [0, 1, 2]), (7, [1])]⟩,
   ⟨3, [(1, [1])]⟩,
   ⟨1, [(1, [2])]⟩,
   ⟨3, [(2, [2])]⟩]

/-- C3: applied to the resource-group matrix
`[[1,1,1,2,-1,2,4,-1,1],[1,3,1,2,2,2,4,4,1],[1,1,3,2,2,2,4,-1,1]]`
(rows are actions, columns elements, -1 the sentinel), the partitioner
returns exactly six jobscripts with the claimed (resource-group,
element-to-actions) pairs, in the claimed order. -/
theorem jobscript_partition_worked_example :
    group_resource_map_into_jobscripts exampleResourceMap
      = expectedExampleJobscripts := by decide

/-- Two further worked examples from the repository's unit test, kept as
sanity checks of the model. -/
example : group_resource_map_into_jobscripts [[2, 2, -1], [8, 8, 1], [4, 4, 1]] =
    [⟨2, [(0, [0]), (1, [0])]⟩, ⟨1, [(2, [1, 2])]⟩,
     ⟨8, [(0, [1]), (1, [1])]⟩, ⟨4, [(0, [2]), (1, [2])]⟩] := by decide

example : group_resource_map_into_jobscripts [[2, 2, -1], [4, 4, 1], [4, 8, -1], [1, 1, 1]] =
    [⟨2, [(0, [0]), (1, [0])]⟩, ⟨1, [(2, [1, 3])]⟩,
     ⟨4, [(0, [1, 2]), (1, [1])]⟩, ⟨8, [(1, [2])]⟩,
     ⟨1, [(0, [3]), (1, [3])]⟩] := by decide

/-! ## Dependency cache

Embedding of `DependencyCache.build` (`src/hpcflow/sdk/core/cache.py`).  The
store population is a `CacheIn`: the list positions play the role of the
`id_` attributes (stores assign ids equal to positions).  Python dicts and
sets become functions of the id and `Finset Nat` respectively.
-/

/-- One stored run (EAR): its `data_idx`, with values normalised to lists of
parameter indices as in `build` (`v if isinstance(v, list) else [v]`). -/
structure StoreEAR where
  data_idx : List (String × List Nat)
deriving DecidableEq, Repr

/-- One stored element iteration: its flattened run IDs
(`[k for j in i.EAR_IDs.values() for k in j]`). -/
structure StoreIter where
  EAR_IDs : List Nat
deriving DecidableEq, Repr

/-- One stored element: its iteration IDs. -/
structure StoreElement where
  iteration_IDs : List Nat
deriving DecidableEq, Repr

/-- The store population consumed by `DependencyCache.build`: all runs,
iterations and elements (position = id), and the parameter-source table
restricted to the `EAR_ID` entry (`all_param_sources[k].get("EAR_ID")`). -/
structure CacheIn where
  runs : List StoreEAR
  paramSourceEAR : Nat → Option Nat
  iters : List StoreIter
  elems : List StoreElement

/-- The parameter indices referenced by run `idx`:'s data index, with the
`repeats.` key filtered out and values flattened (`all_data_idx` in
`build`). -/
def allDataIdx (c : CacheIn) (idx : Nat) : List Nat :=
  (((c.runs.getD idx ⟨[]⟩).data_idx.filter (fun kv => kv.1 ≠ "repeats.")).map
    Prod.snd).flatten

/-- `run_dependencies[idx]`: for every referenced parameter, look up its
source; record the originating run when the source names one and it differs
from the current run. -/
def runDependencies (c : CacheIn) (idx : Nat) : Finset Nat :=
  ((allDataIdx c idx).filterMap (fun k =>
    match c.paramSourceEAR k with
    | some run_k => if run_k ≠ idx then some run_k else none
    | none => none)).toFinset

/-- `run_dependents[m]`: inversion of `run_dependencies` (with an entry for
every run in range, possibly empty). -/
def runDependents (c : CacheIn) (m : Nat) : Finset Nat :=
  ((List.range c.runs.length).filter (fun idx => m ∈ runDependencies c idx)).toFinset

/-- `iter_run_dependencies[k]`: the union of `run_dependencies` over the runs
of iteration `k`. -/
def iterRunDependencies (c : CacheIn) (k : Nat) : Finset Nat :=
  ((c.iters.getD k ⟨[]⟩).EAR_IDs).toFinset.biUnion (runDependencies c)

/-- `all_run_iter_IDs[r]`: the iteration a run belongs to (first match; in a
well-formed store each run belongs to exactly one iteration). -/
def runIterID (c : CacheIn) (r : Nat) : Option Nat :=
  (List.range c.iters.length).find? (fun k => r ∈ (c.iters.getD k ⟨[]⟩).EAR_IDs)

/-- `iter_iter_dependencies[k]`: iteration-level lift of the run-level
dependencies of iteration `k`. -/
def iterIterDependencies (c : CacheIn) (k : Nat) : Finset Nat :=
  (iterRunDependencies c k).biUnion (fun i => (runIterID c i).elim ∅ ({·}))

/-- `elem_iter_dependencies[k]`: union over element `k`:'s iterations. -/
def elemIterDependencies (c : CacheIn) (k : Nat) : Finset Nat :=
  ((c.elems.getD k ⟨[]⟩).iteration_IDs).toFinset.biUnion (iterIterDependencies c)

/-- `all_iter_elem_IDs[it]`: the element an iteration belongs to. -/
def iterElemID (c : CacheIn) (it : Nat) : Option Nat :=
  (List.range c.elems.length).find?
    (fun k => it ∈ (c.elems.getD k ⟨[]⟩).iteration_IDs)

/-- `elem_elem_dependencies[k]`: element-level lift. -/
def elemElemDependencies (c : CacheIn) (k : Nat) : Finset Nat :=
  (elemIterDependencies c k).biUnion (fun i => (iterElemID c i).elim ∅ ({·}))

/-- `elem_elem_dependents[i]`: inversion of `elem_elem_dependencies` (with an
entry, possibly empty, for every element in range). -/
def elemElemDependents (c : CacheIn) (i : Nat) : Finset Nat :=
  ((List.range c.elems.length).filter
    (fun k => i ∈ elemElemDependencies c k)).toFinset

/-- `elem_elem_dependents_rec[k]`: the loop
`for i in elem_elem_dependents[k]: add i; update (elem_elem_dependents[i] - set k)`
as a union over the direct dependents. -/
def elemElemDependentsRec (c : CacheIn) (k : Nat) : Finset Nat :=
  (elemElemDependents c k).biUnion
    (fun i => insert i ((elemElemDependents c i).erase k))

/-- A four-element dependency chain 0 ← 1 ← 2 ← 3: parameter `j` is produced
by run `j` (source `EAR_ID = j`), and run `i + 1`:'s data index references
parameter `i`; each run sits in its own iteration and element. -/
def chainCache : CacheIn where
  runs := [⟨[]⟩, ⟨[("inputs.p", [0])]⟩, ⟨[("inputs.p", [1])]⟩, ⟨[("inputs.p", [2])]⟩]
  paramSourceEAR := fun k => if k < 4 then some k else none
  iters := [⟨[0]⟩, ⟨[1]⟩, ⟨[2]⟩, ⟨[3]⟩]
  elems := [⟨[0]⟩, ⟨[1]⟩, ⟨[2]⟩, ⟨[3]⟩]

end Hpcflow

namespace Hpcflow

/-- C4: for every store population and every run index, the run-dependency
set computed by `DependencyCache.build` never contains the run itself: a
parameter source naming the run's own `EAR_ID` is filtered out
(`run_k is not None and run_k != idx`). -/
theorem run_no_self_dependency (c : CacheIn) (idx : Nat) :
    idx ∉ runDependencies c idx := by
  simp only [runDependencies, List.mem_toFinset, List.mem_filterMap]
  rintro ⟨k, -, h⟩
  cases hs : c.paramSourceEAR k with
  | none => rw [hs] at h; exact Option.noConfusion h
  | some run_k =>
    rw [hs] at h
    by_cases hne : run_k = idx
    · simp [hne] at h
    · simp only [ne_eq, hne, not_false_eq_true, if_true] at h
      exact hne (Option.some.inj h)

/-- C4 witness: the no-self-dependency theorem applied to the concrete
`chainCache` population at run 2. -/
theorem run_no_self_dependency_witness : 2 ∉ runDependencies chainCache 2 :=
  run_no_self_dependency chainCache 2

/-- C6 counterexample: on the four-element chain, element 3 is reachable
from element 0 through the transitive closure of the direct element-dependent
relation, yet `elem_elem_dependents_rec` does not contain it: the computed
set only reaches depth two. -/
theorem elem_dependents_rec_misses_depth_three :
    Relation.TransGen (fun x y => y ∈ elemElemDependents chainCache x) 0 3 ∧
      3 ∉ elemElemDependentsRec chainCache 0 := by
  constructor
  · have h01 : (1 : Nat) ∈ elemElemDependents chainCache 0 := by decide
    have h12 : (2 : Nat) ∈ elemElemDependents chainCache 1 := by decide
    have h23 : (3 : Nat) ∈ elemElemDependents chainCache 2 := by decide
    exact Relation.TransGen.tail
      (Relation.TransGen.tail (Relation.TransGen.single h01) h12) h23
  · decide

/-- C6 (amended): the recursive element-dependents set computed by
`DependencyCache.build` holds exactly the elements reachable by dependent
chains of depth one or two (dependents of dependents, excluding the start
element itself) - not the full transitive closure. -/
theorem elem_dependents_rec_depth_two (c : CacheIn) (k j : Nat) :
    j ∈ elemElemDependentsRec c k ↔
      (j ∈ elemElemDependents c k ∨
        ∃ i ∈ elemElemDependents c k, j ∈ elemElemDependents c i ∧ j ≠ k) := by
  simp only [elemElemDependentsRec, Finset.mem_biUnion, Finset.mem_insert,
    Finset.mem_erase]
  constructor
  · rintro ⟨i, hi, h | ⟨hjk, hji⟩⟩
    · subst h; exact Or.inl hi
    · exact Or.inr ⟨i, hi, hji, hjk⟩
  · rintro (hj | ⟨i, hi, hji, hjk⟩)
    · exact ⟨j, hj, Or.inl rfl⟩
    · exact ⟨i, hi, Or.inr ⟨hjk, hji⟩⟩

/-! ## Element resolver: `resolve_element_data_indices`

Embedding of `WorkflowTask.resolve_element_data_indices`
(`src/hpcflow/sdk/core/task.py`).  Python's stable `sorted` on the
`nesting_order` key is `List.insertionSort`; `group_by_dict_key_values`
(whose module is not part of the provided sources) is modelled from the
spec's words "group records by nesting order" - applied after the stable
sort this is grouping of consecutive records with equal nesting order.
-/

/-- One multiplicity record (`multiplicity`, `nesting_order`, `path`). -/
structure MultRecord where
  multiplicity : Nat
  nesting_order : Int
  path : String
deriving DecidableEq, Repr

instance : Inhabited MultRecord := ⟨⟨0, 0, ""⟩⟩

/-- The sort key comparison used by `sorted(multiplicities, key=nesting_order)`. -/
def multLE (a b : MultRecord) : Prop := a.nesting_order ≤ b.nesting_order

instance : DecidableRel multLE := fun a b =>
  inferInstanceAs (Decidable (a.nesting_order ≤ b.nesting_order))

instance : IsTotal MultRecord multLE := ⟨fun _ _ => Int.le_total _ _⟩

instance : IsTrans MultRecord multLE := ⟨fun _ _ _ => Int.le_trans⟩

/-- `multi_srt = sorted(multiplicities, key=nesting_order)` (stable). -/
def sortByOrder (l : List MultRecord) : List MultRecord :=
  List.insertionSort multLE l

/-- Nesting order of a group's first record. -/
def headOrder (g : List MultRecord) : Int := (g.headD default).nesting_order

/-- Multiplicity of a group's first record (the group's shared multiplicity
when the records of the group agree). -/
def headMult (g : List MultRecord) : Nat := (g.headD default).multiplicity

/-- Group consecutive records sharing a nesting order
(`group_by_dict_key_values(multi_srt, "nesting_order")`, modelled from the
spec: group records by nesting order). -/
def groupRuns : List MultRecord → List (List MultRecord)
  | [] => []
  | x :: xs =>
    match groupRuns xs with
    | (y :: g) :: gs =>
      if x.nesting_order = y.nesting_order then (x :: y :: g) :: gs
      else [x] :: (y :: g) :: gs
    | gs => [x] :: gs

/-- One element's data index: path ↦ chosen value index, in insertion
order (a Python dict). -/
abbrev ElemDatIdx := List (String × Nat)

/-- Dict update `{**element, path: v}`: replace in place if the key exists,
else append. -/
def setKey : ElemDatIdx → String → Nat → ElemDatIdx
  | [], p, v => [(p, v)]
  | (q, w) :: rest, p, v =>
    if q = p then (q, v) :: rest else (q, w) :: setKey rest p v

/-- `{**element, **{i.path: val_idx for i in para_sequences}}`. -/
def setKeys (e : ElemDatIdx) (grp : List MultRecord) (v : Nat) : ElemDatIdx :=
  grp.foldl (fun acc r => setKey acc r.path v) e

/-- One pass of the element cross-product: for each value index of the
group (outer loop) and each existing element (inner loop), append the
extended element. -/
def crossStep (acc : List ElemDatIdx) (grp : List MultRecord) (m : Nat) :
    List ElemDatIdx :=
  (List.range m).flatMap (fun v => acc.map (fun e => setKeys e grp v))

/-- The loop over nesting-order groups: check that all records of the group
share one multiplicity (else the `ValueError` of the source), then extend
`element_dat_idx` by the group's cross-product pass. -/
def resolveGroups : List (List MultRecord) → List ElemDatIdx →
    Except String (List ElemDatIdx)
  | [], acc => .ok acc
  | g :: gs, acc =>
    match g with
    | [] => resolveGroups gs acc
    | r0 :: rest =>
      if rest.all (fun r => r.multiplicity = r0.multiplicity) then
        resolveGroups gs (crossStep acc (r0 :: rest) r0.multiplicity)
      else
        .error "All inputs with the same nesting_order must have the same multiplicity"

/-- `WorkflowTask.resolve_element_data_indices`: sort records by nesting
order, group equal orders, and build the element data indices, starting from
the single empty element. -/
def resolve_element_data_indices (multiplicities : List MultRecord) :
    Except String (List ElemDatIdx) :=
  resolveGroups (groupRuns (sortByOrder multiplicities)) [[]]

/-- The shared multiplicity of the records holding a given nesting order
(the multiplicity of the first such record). -/
def sharedMult (ms : List MultRecord) (o : Int) : Nat :=
  ((ms.find? (fun r => r.nesting_order = o)).map (fun r => r.multiplicity)).getD 0

example : resolve_element_data_indices [] = Except.ok [[]] := rfl

example :
    resolve_element_data_indices [⟨2, 0, "a"⟩, ⟨2, 1, "b"⟩] =
      Except.ok [[("a", 0), ("b", 0)], [("a", 1), ("b", 0)],
        [("a", 0), ("b", 1)], [("a", 1), ("b", 1)]] := rfl

/-! ### Structural lemmas about the grouping and the cross-product pass -/

lemma length_crossStep (acc : List ElemDatIdx) (grp : List MultRecord) (m : Nat) :
    (crossStep acc grp m).length = m * acc.length := by
  simp [crossStep, List.length_flatMap, Function.comp_def, List.map_const']

lemma groupRuns_flatten (l : List MultRecord) : (groupRuns l).flatten = l := by
  induction l with
  | nil => rfl
  | cons x xs ih =>
    simp only [groupRuns]
    cases hgr : groupRuns xs with
    | nil =>
      rw [hgr] at ih
      simp only [List.flatten_nil] at ih
      simp [← ih]
    | cons g gs =>
      rw [hgr] at ih
      cases g with
      | nil => simpa using ih
      | cons y g2 =>
        by_cases heq : x.nesting_order = y.nesting_order <;>
          simp [heq, ← ih]

lemma groupRuns_ne_nil (l : List MultRecord) : ∀ g ∈ groupRuns l, g ≠ [] := by
  induction l with
  | nil => intro g hg; simp [groupRuns] at hg
  | cons x xs ih =>
    intro g hg
    simp only [groupRuns] at hg
    cases hgr : groupRuns xs with
    | nil => rw [hgr] at hg; simp at hg; simp [hg]
    | cons g0 gs =>
      rw [hgr] at hg
      cases g0 with
      | nil =>
        exact absurd rfl (ih [] (by rw [hgr]; exact List.mem_cons_self _ _))
      | cons y g2 =>
        dsimp only at hg
        by_cases heq : x.nesting_order = y.nesting_order
        · rw [if_pos heq] at hg
          rcases List.mem_cons.mp hg with hg | hg
          · simp [hg]
          · exact ih g (by rw [hgr]; exact List.mem_cons_of_mem _ hg)
        · rw [if_neg heq] at hg
          rcases List.mem_cons.mp hg with hg | hg
          · simp [hg]
          · exact ih g (by rw [hgr]; exact hg)

lemma groupRuns_const (l : List MultRecord) :
    ∀ g ∈ groupRuns l, ∀ r ∈ g, r.nesting_order = headOrder g := by
  induction l with
  | nil => intro g hg; simp [groupRuns] at hg
  | cons x xs ih =>
    intro g hg r hr
    simp only [groupRuns] at hg
    cases hgr : groupRuns xs with
    | nil =>
      rw [hgr] at hg
      simp at hg
      subst hg
      rcases List.mem_singleton.mp hr with rfl
      rfl
    | cons g0 gs =>
      rw [hgr] at hg
      cases g0 with
      | nil =>
        exact absurd rfl (groupRuns_ne_nil xs [] (by rw [hgr]; exact List.mem_cons_self _ _))
      | cons y g2 =>
        dsimp only at hg
        by_cases heq : x.nesting_order = y.nesting_order
        · rw [if_pos heq] at hg
          rcases List.mem_cons.mp hg with hg | hg
          · subst hg
            rcases List.mem_cons.mp hr with rfl | hr
            · rfl
            · have := ih (y :: g2) (by rw [hgr]; exact List.mem_cons_self _ _) r hr
              simpa [headOrder, heq] using this
          · exact ih g (by rw [hgr]; exact List.mem_cons_of_mem _ hg) r hr
        · rw [if_neg heq] at hg
          rcases List.mem_cons.mp hg with hg | hg
          · subst hg
            rcases List.mem_singleton.mp hr with rfl
            rfl
          · exact ih g (by rw [hgr]; exact hg) r hr

/-- The head records of the groups of a list sorted by nesting order have
strictly increasing nesting orders. -/
lemma groupRuns_heads_chain (l : List MultRecord) (h : l.Chain' multLE) :
    ((groupRuns l).map headOrder).Chain' (· < ·) := by
  induction l with
  | nil => simp [groupRuns]
  | cons x xs ih =>
    rcases List.chain'_cons'.mp h with ⟨hhd, htl⟩
    have ihx := ih htl
    simp only [groupRuns]
    cases hgr : groupRuns xs with
    | nil => simp
    | cons g0 gs =>
      rw [hgr] at ihx
      cases g0 with
      | nil =>
        exact absurd rfl (groupRuns_ne_nil xs [] (by rw [hgr]; exact List.mem_cons_self _ _))
      | cons y g2 =>
        have hyhead : xs.head? = some y := by
          have hfl := groupRuns_flatten xs
          rw [hgr] at hfl
          rw [← hfl]
          simp
        have hxy : multLE x y := hhd y hyhead
        dsimp only at ihx ⊢
        by_cases heq : x.nesting_order = y.nesting_order
        · rw [if_pos heq]
          simp only [List.map_cons] at ihx ⊢
          have : headOrder (x :: y :: g2) = headOrder (y :: g2) := by
            simp [headOrder, heq]
          rw [this]
          exact ihx
        · rw [if_neg heq]
          simp only [List.map_cons] at ihx ⊢
          refine List.chain'_cons'.mpr ⟨?_, ihx⟩
          intro z hz
          rw [Option.mem_def, List.head?_cons, Option.some_inj] at hz
          subst hz
          have hx1 : headOrder [x] = x.nesting_order := rfl
          have hy1 : headOrder (y :: g2) = y.nesting_order := rfl
          rw [hx1, hy1]
          have hxy2 : x.nesting_order ≤ y.nesting_order := hxy
          exact lt_of_le_of_ne hxy2 heq

lemma mem_of_mem_groupRuns {l : List MultRecord} {g : List MultRecord}
    (hg : g ∈ groupRuns l) {r : MultRecord} (hr : r ∈ g) : r ∈ l := by
  rw [← groupRuns_flatten l]
  exact List.mem_flatten.mpr ⟨g, hg, hr⟩

lemma headD_mem {g : List MultRecord} (h : g ≠ []) : g.headD default ∈ g := by
  cases g with
  | nil => exact absurd rfl h
  | cons a l => simp

lemma sorted_heads_nodup (l : List MultRecord) (hs : List.Sorted multLE l) :
    ((groupRuns l).map headOrder).Nodup := by
  have hch : l.Chain' multLE := List.Pairwise.chain' hs
  have hpw : ((groupRuns l).map headOrder).Pairwise (· < ·) :=
    List.chain'_iff_pairwise.mp (groupRuns_heads_chain l hch)
  exact hpw.imp (fun h => ne_of_lt h)

lemma heads_toFinset (l : List MultRecord) :
    ((groupRuns l).map headOrder).toFinset =
      (l.map (fun r => r.nesting_order)).toFinset := by
  ext o
  simp only [List.mem_toFinset, List.mem_map]
  constructor
  · rintro ⟨g, hg, rfl⟩
    exact ⟨g.headD default,
      mem_of_mem_groupRuns hg (headD_mem (groupRuns_ne_nil l g hg)), rfl⟩
  · rintro ⟨r, hr, rfl⟩
    have hr2 : r ∈ (groupRuns l).flatten := by
      rw [groupRuns_flatten]; exact hr
    obtain ⟨g, hg, hrg⟩ := List.mem_flatten.mp hr2
    exact ⟨g, hg, (groupRuns_const l g hg r hrg).symm⟩

lemma resolveGroups_length (gs : List (List MultRecord)) :
    ∀ acc : List ElemDatIdx,
      (∀ g ∈ gs, g ≠ []) →
      (∀ g ∈ gs, ∀ r ∈ g, r.multiplicity = headMult g) →
      ∃ l, resolveGroups gs acc = Except.ok l ∧
        l.length = (gs.map headMult).prod * acc.length := by
  induction gs with
  | nil =>
    intro acc _ _
    exact ⟨acc, rfl, by simp⟩
  | cons g gs ih =>
    intro acc hne hmult
    cases g with
    | nil => exact absurd rfl (hne [] (List.mem_cons_self _ _))
    | cons r0 rest =>
      have hall : rest.all (fun r => r.multiplicity = r0.multiplicity) = true := by
        rw [List.all_eq_true]
        intro r hr
        have := hmult (r0 :: rest) (List.mem_cons_self _ _) r
          (List.mem_cons_of_mem _ hr)
        simp only [headMult, List.headD_cons] at this
        simpa using this
      simp only [resolveGroups, hall, if_true]
      obtain ⟨l, hl, hlen⟩ := ih (crossStep acc (r0 :: rest) r0.multiplicity)
        (fun g hg => hne g (List.mem_cons_of_mem _ hg))
        (fun g hg => hmult g (List.mem_cons_of_mem _ hg))
      refine ⟨l, hl, ?_⟩
      rw [hlen, length_crossStep]
      simp only [List.map_cons, List.prod_cons, headMult, List.headD_cons]
      ring

lemma headMult_eq_sharedMult (ms : List MultRecord)
    (hcons : ∀ r ∈ ms, ∀ s ∈ ms, r.nesting_order = s.nesting_order →
      r.multiplicity = s.multiplicity)
    {g : List MultRecord} (hg : g ∈ groupRuns (sortByOrder ms)) :
    headMult g = sharedMult ms (headOrder g) := by
  have hne := groupRuns_ne_nil _ g hg
  have hdg : g.headD default ∈ g := headD_mem hne
  have hdms : g.headD default ∈ ms :=
    (List.Perm.mem_iff (List.perm_insertionSort multLE ms)).mp
      (mem_of_mem_groupRuns hg hdg)
  have hfind : ∃ r, ms.find? (fun r => r.nesting_order = headOrder g) = some r := by
    rw [← Option.isSome_iff_exists, List.find?_isSome]
    exact ⟨g.headD default, hdms, by simp [headOrder]⟩
  obtain ⟨r, hr⟩ := hfind
  have hrmem : r ∈ ms := List.mem_of_find?_eq_some hr
  have hrp : r.nesting_order = headOrder g := by
    have := List.find?_some hr
    simpa using this
  have hmm : r.multiplicity = (g.headD default).multiplicity :=
    hcons r hrmem (g.headD default) hdms (by rw [hrp]; rfl)
  have hsm : sharedMult ms (headOrder g) = r.multiplicity := by
    simp [sharedMult, hr]
  rw [hsm]
  exact hmm.symm

/-- C1: for every list of multiplicity records with non-negative nesting
orders and consistent multiplicities within each nesting order,
`resolve_element_data_indices` succeeds and returns one element data index
per point of the cross-product: the length of the returned list is the
product, over the distinct nesting orders, of the shared multiplicity of
that order's records (an empty record list yields the single element with
an empty mapping - the empty product). -/
theorem resolve_element_count (ms : List MultRecord)
    (hnn : ∀ r ∈ ms, 0 ≤ r.nesting_order)
    (hcons : ∀ r ∈ ms, ∀ s ∈ ms, r.nesting_order = s.nesting_order →
      r.multiplicity = s.multiplicity) :
    ∃ l, resolve_element_data_indices ms = Except.ok l ∧
      l.length =
        ((ms.map (fun r => r.nesting_order)).toFinset).prod (sharedMult ms) ∧
      (ms = [] → l = [[]]) := by
  have hperm : List.Perm (sortByOrder ms) ms := List.perm_insertionSort multLE ms
  have hsorted : List.Sorted multLE (sortByOrder ms) :=
    List.sorted_insertionSort multLE ms
  have hne : ∀ g ∈ groupRuns (sortByOrder ms), g ≠ [] :=
    groupRuns_ne_nil (sortByOrder ms)
  have hmult : ∀ g ∈ groupRuns (sortByOrder ms), ∀ r ∈ g,
      r.multiplicity = headMult g := by
    intro g hg r hr
    have hrms : r ∈ ms := hperm.mem_iff.mp (mem_of_mem_groupRuns hg hr)
    have hdms : g.headD default ∈ ms :=
      hperm.mem_iff.mp (mem_of_mem_groupRuns hg (headD_mem (hne g hg)))
    have hro : r.nesting_order = headOrder g := groupRuns_const _ g hg r hr
    exact hcons r hrms (g.headD default) hdms (by rw [hro]; rfl)
  obtain ⟨l, hl, hlen⟩ :=
    resolveGroups_length (groupRuns (sortByOrder ms)) [[]] hne hmult
  refine ⟨l, hl, ?_, ?_⟩
  · rw [hlen]
    have hmap : (groupRuns (sortByOrder ms)).map headMult =
        ((groupRuns (sortByOrder ms)).map headOrder).map (sharedMult ms) := by
      rw [List.map_map]
      exact List.map_congr_left (fun g hg => headMult_eq_sharedMult ms hcons hg)
    have hfin : ((groupRuns (sortByOrder ms)).map headOrder).toFinset =
        (ms.map (fun r => r.nesting_order)).toFinset := by
      rw [heads_toFinset]
      exact List.toFinset_eq_of_perm _ _
        (hperm.map (fun r => r.nesting_order))
    rw [hmap, ← List.prod_toFinset (sharedMult ms)
      (sorted_heads_nodup (sortByOrder ms) hsorted), hfin]
    simp
  · intro hempty
    subst hempty
    exact (Except.ok.inj hl).symm

/-- C1 witness: two records at nesting order 0 (multiplicity 2) and one at
nesting order 1 (multiplicity 3) give 2 * 3 = 6 elements. -/
theorem resolve_element_count_witness :
    ∃ l, resolve_element_data_indices [⟨2, 0, "a"⟩, ⟨2, 0, "b"⟩, ⟨3, 1, "c"⟩] =
      Except.ok l ∧
      l.length =
        (([⟨2, 0, "a"⟩, ⟨2, 0, "b"⟩, (⟨3, 1, "c"⟩ : MultRecord)].map
          (fun r => r.nesting_order)).toFinset).prod
          (sharedMult [⟨2, 0, "a"⟩, ⟨2, 0, "b"⟩, ⟨3, 1, "c"⟩]) ∧
      ([⟨2, 0, "a"⟩, ⟨2, 0, "b"⟩, (⟨3, 1, "c"⟩ : MultRecord)] = [] → l = [[]]) :=
  resolve_element_count [⟨2, 0, "a"⟩, ⟨2, 0, "b"⟩, ⟨3, 1, "c"⟩]
    (by decide) (by decide)

/-! ### Which nesting order varies fastest in the cross-product -/

lemma flatten_map_singleton {α : Type} (l : List Nat) (f : Nat → α) :
    (l.map fun x => [f x]).flatten = l.map f := by
  induction l with
  | nil => rfl
  | cons a t ih => simp [ih]

lemma length_flatMap_range_map {α : Type} (f : Nat → Nat → α) (m1 m2 : Nat) :
    ((List.range m2).flatMap
      (fun w => (List.range m1).map (fun v => f v w))).length = m2 * m1 := by
  simp [List.length_flatMap, Function.comp_def, List.map_const']

lemma flatMap_range_getElem {α : Type} (f : Nat → Nat → α) (m1 m2 i : Nat)
    (h : i < m1 * m2) :
    ((List.range m2).flatMap
      (fun w => (List.range m1).map (fun v => f v w)))[i]? =
      some (f (i % m1) (i / m1)) := by
  induction m2 with
  | zero => exact absurd h (by simp)
  | succ n ih =>
    rw [List.range_succ, List.flatMap_append]
    by_cases hlt : i < m1 * n
    · rw [List.getElem?_append_left
        (by rw [length_flatMap_range_map, Nat.mul_comm n m1]; exact hlt)]
      exact ih hlt
    · have hge : m1 * n ≤ i := le_of_not_lt hlt
      have hi : i < m1 * n + m1 := by
        have hmu : m1 * (n + 1) = m1 * n + m1 := by ring
        omega
      have hd : i - m1 * n < m1 := by omega
      have hm1 : 0 < m1 := by omega
      rw [List.getElem?_append_right
        (by rw [length_flatMap_range_map, Nat.mul_comm n m1]; exact hge)]
      rw [length_flatMap_range_map]
      have hieq : i = m1 * n + (i - m1 * n) := by omega
      have hmod : i % m1 = i - m1 * n := by
        conv_lhs => rw [hieq]
        rw [Nat.mul_add_mod]
        exact Nat.mod_eq_of_lt hd
      have hdiv : i / m1 = n := by
        conv_lhs => rw [hieq]
        rw [Nat.mul_add_div hm1, Nat.div_eq_of_lt hd]
        exact Nat.add_zero n
      rw [hmod, hdiv]
      have hnm : i - n * m1 = i - m1 * n := by rw [Nat.mul_comm]
      rw [hnm]
      simp only [List.flatMap_cons, List.flatMap_nil, List.append_nil]
      rw [List.getElem?_map]
      rw [List.getElem?_range hd]
      rfl

/-- C5 (amended): in the cross-product built by
`resolve_element_data_indices` over two groups of distinct nesting orders,
the LOWER nesting-order group's value index varies FASTEST: element `i` of
the returned list assigns value index `i % m_lower` to the lower-order path
and `i / m_lower` to the higher-order path, so consecutive elements differ
first in the lowest-order group's value index (the code comment states:
"order by nesting order (so lower nesting orders will be fastest-varying)"). -/
theorem resolve_lower_order_varies_fastest (r1 r2 : MultRecord)
    (hor : r1.nesting_order < r2.nesting_order)
    (hpath : r1.path ≠ r2.path) :
    ∃ l, resolve_element_data_indices [r1, r2] = Except.ok l ∧
      l.length = r2.multiplicity * r1.multiplicity ∧
      ∀ i : Nat, i < r1.multiplicity * r2.multiplicity →
        l[i]? = some [(r1.path, i % r1.multiplicity),
          (r2.path, i / r1.multiplicity)] := by
  have hle : multLE r1 r2 := le_of_lt hor
  have hne : r1.nesting_order ≠ r2.nesting_order := ne_of_lt hor
  have hsort : sortByOrder [r1, r2] = [r1, r2] := by
    simp only [sortByOrder, List.insertionSort, List.orderedInsert]
    rw [if_pos hle]
  have hgroup : groupRuns [r1, r2] = [[r1], [r2]] := by
    simp only [groupRuns]
    rw [if_neg hne]
  have hres : resolve_element_data_indices [r1, r2] =
      Except.ok (crossStep (crossStep [[]] [r1] r1.multiplicity) [r2]
        r2.multiplicity) := by
    simp only [resolve_element_data_indices, hsort, hgroup, resolveGroups,
      List.all_nil, if_true]
  have hstep1 : crossStep [[]] [r1] r1.multiplicity =
      (List.range r1.multiplicity).map (fun v => [(r1.path, v)]) := by
    simp [crossStep, setKeys, setKey, List.flatMap]
    exact flatten_map_singleton _ _
  have hstep2 : crossStep ((List.range r1.multiplicity).map
        (fun v => [(r1.path, v)])) [r2] r2.multiplicity =
      (List.range r2.multiplicity).flatMap (fun w =>
        (List.range r1.multiplicity).map
          (fun v => [(r1.path, v), (r2.path, w)])) := by
    simp [crossStep, setKeys, setKey, List.map_map, Function.comp_def, hpath]
  refine ⟨(List.range r2.multiplicity).flatMap (fun w =>
    (List.range r1.multiplicity).map
      (fun v => [(r1.path, v), (r2.path, w)])), ?_, ?_, ?_⟩
  · rw [hres, hstep1, hstep2]
  · exact length_flatMap_range_map _ _ _
  · intro i hi
    exact flatMap_range_getElem _ _ _ _ hi

/-- C5 witness: the amended claim applied at two concrete records (lower
order 0 with multiplicity 3, higher order 1 with multiplicity 2). -/
theorem resolve_lower_order_varies_fastest_witness :
    ∃ l, resolve_element_data_indices [⟨3, 0, "x"⟩, ⟨2, 1, "y"⟩] =
      Except.ok l ∧ l.length = 2 * 3 ∧
      ∀ i : Nat, i < 3 * 2 →
        l[i]? = some [("x", i % 3), ("y", i / 3)] :=
  resolve_lower_order_varies_fastest ⟨3, 0, "x"⟩ ⟨2, 1, "y"⟩
    (by decide) (by decide)

/-- C5 counterexample: on two records with nesting orders 0 and 1 (each of
multiplicity 2), the first two returned elements agree on the HIGHER-order
path "b" and differ on the LOWER-order path "a": the lower nesting-order
group's value index varies fastest, refuting the claim that the lower
order's index varies slower (i.e. that consecutive elements differ first in
the highest-order group's value index). -/
theorem resolve_order_convention_counterexample :
    resolve_element_data_indices [⟨2, 0, "a"⟩, ⟨2, 1, "b"⟩] =
      Except.ok [[("a", 0), ("b", 0)], [("a", 1), ("b", 0)],
        [("a", 0), ("b", 1)], [("a", 1), ("b", 1)]] ∧
    List.lookup "b" [("a", 0), ("b", 0)] = List.lookup "b" [("a", 1), ("b", 0)] ∧
    List.lookup "a" [("a", 0), ("b", 0)] ≠ List.lookup "a" [("a", 1), ("b", 0)] :=
  ⟨rfl, rfl, by decide⟩

end Hpcflow

namespace Hpcflow

/-! ## Parameter store backends

Embeddings of the parameter operations of `JSONPersistentStore`
(`src/hpcflow/sdk/persistence/json.py`) and `ZarrPersistentStore`
(`src/hpcflow/sdk/persistence/zarr.py`).  A parameter payload is
`Option V`: `none` is the JSON `null` (the unset placeholder written by
`add_unset_parameter_data`).  The JSON document's `parameter_data` dict is
a partial map from index to payload (outer `none` = key absent, an access
raises `KeyError`); the Zarr base array is a list of payloads.
`_encode_parameter_data` lives in the store base class and is passed in as
`encode`; decoding leaves the payload in place and plays no role in the
set/unset logic.
-/

/-- The JSON backend's parameter state: the on-disk document dict and the
in-memory pending bucket (`_pending["parameter_data"]`). -/
structure JSONParams (V : Type) where
  disk : Nat → Option (Option V)
  pending : Nat → Option (Option V)

/-- `JSONPersistentStore.is_parameter_set`: reads the persistent document
only (`self.load()["parameter_data"][str(index)] is not None`). -/
def JSONParams.is_parameter_set {V : Type} (s : JSONParams V) (idx : Nat) :
    Except String Bool :=
  match s.disk idx with
  | some payload => .ok payload.isSome
  | none => .error "KeyError"

/-- `JSONPersistentStore.get_parameter_data`: the pending entry takes
precedence over the document; `is_set = False if data is None else True`. -/
def JSONParams.get_parameter_data {V : Type} (s : JSONParams V) (idx : Nat) :
    Except String (Bool × Option V) :=
  match s.pending idx with
  | some payload => .ok (payload.isSome, payload)
  | none =>
    match s.disk idx with
    | some payload => .ok (payload.isSome, payload)
    | none => .error "KeyError"

/-- `JSONPersistentStore.set_parameter`: raise if already set, else buffer
the encoded value in the pending bucket; the returned state is unchanged
when an error is raised. -/
def JSONParams.set_parameter {V : Type} (encode : V → V) (s : JSONParams V)
    (idx : Nat) (d : V) : Option String × JSONParams V :=
  match s.is_parameter_set idx with
  | .error e => (some e, s)
  | .ok true => (some "Parameter is already set", s)
  | .ok false =>
    (none, { s with pending := fun j =>
      if j = idx then some (some (encode d)) else s.pending j })

/-- The Zarr backend's parameter state: the base array of payloads. -/
structure ZarrParams (V : Type) where
  base : List (Option V)

/-- `ZarrPersistentStore._get_parameter_data`: index the base array. -/
def ZarrParams.getData {V : Type} (s : ZarrParams V) (idx : Nat) :
    Except String (Option V) :=
  match s.base[idx]? with
  | some payload => .ok payload
  | none => .error "IndexError"

/-- `ZarrPersistentStore.is_parameter_set`. -/
def ZarrParams.is_parameter_set {V : Type} (s : ZarrParams V) (idx : Nat) :
    Except String Bool :=
  (s.getData idx).map Option.isSome

/-- `ZarrPersistentStore.get_parameter_data`. -/
def ZarrParams.get_parameter_data {V : Type} (s : ZarrParams V) (idx : Nat) :
    Except String (Bool × Option V) :=
  (s.getData idx).map (fun payload => (payload.isSome, payload))

/-- `ZarrPersistentStore.set_parameter`: raise if already set, else write
the encoded value into the base array in place. -/
def ZarrParams.set_parameter {V : Type} (encode : V → V) (s : ZarrParams V)
    (idx : Nat) (d : V) : Option String × ZarrParams V :=
  match s.is_parameter_set idx with
  | .error e => (some e, s)
  | .ok true => (some "Parameter is already set", s)
  | .ok false => (none, ⟨s.base.set idx (some (encode d))⟩)

/-- C8: in both backends, calling `set_parameter` on a parameter index
whose value is already set in the store raises the already-set error and
leaves the store - hence the stored value of that parameter - unchanged. -/
theorem set_parameter_already_set {V : Type} (encode : V → V)
    (js : JSONParams V) (zs : ZarrParams V) (idx : Nat) (d : V) :
    (js.is_parameter_set idx = .ok true →
      js.set_parameter encode idx d = (some "Parameter is already set", js)) ∧
    (zs.is_parameter_set idx = .ok true →
      zs.set_parameter encode idx d = (some "Parameter is already set", zs)) := by
  constructor
  · intro h
    simp [JSONParams.set_parameter, h]
  · intro h
    simp [ZarrParams.set_parameter, h]

/-- A JSON store holding one committed, set parameter at index 0. -/
def jsSetStore : JSONParams Nat :=
  ⟨fun i => if i = 0 then some (some 42) else none, fun _ => none⟩

/-- A Zarr store holding one set parameter at index 0. -/
def zsSetStore : ZarrParams Nat := ⟨[some 42]⟩

/-- C8 witness: the already-set error on concrete stores. -/
theorem set_parameter_already_set_witness :
    jsSetStore.set_parameter id 0 7 =
      (some "Parameter is already set", jsSetStore) ∧
    zsSetStore.set_parameter id 0 7 =
      (some "Parameter is already set", zsSetStore) :=
  ⟨(set_parameter_already_set id jsSetStore zsSetStore 0 7).1 rfl,
   (set_parameter_already_set id jsSetStore zsSetStore 0 7).2 rfl⟩

/-- C10: in both backends the getters report a parameter as set exactly
when the consulted payload is not null (`is_set = False if data is None
else True`); consequently a pre-allocated parameter whose stored payload is
null is reported as unset, and a subsequent `set_parameter` call on it does
not raise the already-set error (it performs the write). -/
theorem param_reported_set_iff_payload_not_null {V : Type} (encode : V → V)
    (js : JSONParams V) (zs : ZarrParams V) (idx : Nat) (d : V) :
    (∀ payload, js.disk idx = some payload →
      js.is_parameter_set idx = .ok payload.isSome) ∧
    (∀ payload, js.pending idx = some payload →
      js.get_parameter_data idx = .ok (payload.isSome, payload)) ∧
    (∀ payload, js.pending idx = none → js.disk idx = some payload →
      js.get_parameter_data idx = .ok (payload.isSome, payload)) ∧
    (js.disk idx = some none →
      (js.set_parameter encode idx d).1 = none ∧
      (js.set_parameter encode idx d).2.pending idx = some (some (encode d))) ∧
    (∀ payload, zs.base[idx]? = some payload →
      zs.is_parameter_set idx = .ok payload.isSome ∧
      zs.get_parameter_data idx = .ok (payload.isSome, payload)) ∧
    (zs.base[idx]? = some none →
      (zs.set_parameter encode idx d).1 = none ∧
      (zs.set_parameter encode idx d).2.base =
        zs.base.set idx (some (encode d))) := by
  refine ⟨?_, ?_, ?_, ?_, ?_, ?_⟩
  · intro payload h
    simp [JSONParams.is_parameter_set, h]
  · intro payload h
    simp [JSONParams.get_parameter_data, h]
  · intro payload hp h
    simp [JSONParams.get_parameter_data, hp, h]
  · intro h
    have hset : js.is_parameter_set idx = .ok false := by
      simp [JSONParams.is_parameter_set, h]
    constructor
    · simp [JSONParams.set_parameter, hset]
    · simp [JSONParams.set_parameter, hset]
  · intro payload h
    constructor
    · simp [ZarrParams.is_parameter_set, ZarrParams.getData, h, Except.map]
    · simp [ZarrParams.get_parameter_data, ZarrParams.getData, h, Except.map]
  · intro h
    have hset : zs.is_parameter_set idx = .ok false := by
      simp [ZarrParams.is_parameter_set, ZarrParams.getData, h, Except.map]
    constructor
    · simp [ZarrParams.set_parameter, hset]
    · simp [ZarrParams.set_parameter, hset]

/-- A JSON store with a committed null (pre-allocated, unset) payload at
index 0 and no pending entry. -/
def jsNullStore : JSONParams Nat :=
  ⟨fun i => if i = 0 then some none else none, fun _ => none⟩

/-- A Zarr store with a null payload at index 0. -/
def zsNullStore : ZarrParams Nat := ⟨[none]⟩

/-- C10 witness: on concrete stores with a null payload, both backends
report the parameter unset and `set_parameter` succeeds. -/
theorem param_reported_set_iff_payload_not_null_witness :
    jsNullStore.is_parameter_set 0 = .ok false ∧
    (jsNullStore.set_parameter id 0 5).1 = none ∧
    zsNullStore.is_parameter_set 0 = .ok false ∧
    (zsNullStore.set_parameter id 0 5).1 = none := by
  obtain ⟨h1, _, _, h4, h5, h6⟩ :=
    param_reported_set_iff_payload_not_null id jsNullStore zsNullStore 0 5
  exact ⟨h1 none rfl, (h4 rfl).1, (h5 none rfl).1, (h6 rfl).1⟩

end Hpcflow

namespace Hpcflow

/-! ## EAR initialisation: `initialise_EARs`

Embedding of `WorkflowTask.initialise_EARs` and
`_initialise_element_iter_EARs` (`src/hpcflow/sdk/core/task.py`).  Rule
evaluation (`test_action_rule`, which reads the iteration's resolved
parameter data and may raise `UnsetParameterDataError`) is abstracted by
recording, per iteration and per schema action, the list of that action's
rule-evaluation outcomes: `Except.error ()` is a raised
`UnsetParameterDataError`, `Except.ok b` an evaluation to `b`.  The
traversal `for element in self.elements: for iter_i in element.iterations`
is flattened into one list of iterations in traversal order.
-/

/-- The outcome of evaluating one action rule against one iteration's data
index. -/
abbrev RuleEval := Except Unit Bool

/-- One element iteration: its id, its `EARs_initialised` flag, and the
rule-evaluation outcomes for each schema action (in declaration order). -/
structure ElemIter where
  id_ : Nat
  EARs_initialised : Bool
  ruleEvals : List (List RuleEval)

/-- `all(self.test_action_rule(i, schema_data_idx) for i in action.rules)`:
Python's `all` short-circuits at the first `False`; an exception raised
while evaluating a rule propagates. -/
def allRules : List RuleEval → Except Unit Bool
  | [] => .ok true
  | r :: rs =>
    match r with
    | .error e => .error e
    | .ok false => .ok false
    | .ok true => allRules rs

/-- One pending EAR record: the `add_EAR` arguments (owning iteration,
action index) along with the task-wide `EAR_ID` the run was numbered with. -/
structure EARRec where
  elem_iter_ID : Nat
  action_idx : Nat
  EAR_ID : Nat
deriving DecidableEq, Repr

/-- `True` exactly on `Except.ok`. -/
def isOkE {α : Type} : Except Unit α → Bool
  | .ok _ => true
  | .error _ => false

/-- The scan over schema actions in `_initialise_element_iter_EARs`: a
raised `UnsetParameterDataError` fails the whole iteration before anything
is added to the store; otherwise one EAR is recorded per action whose rules
all hold, numbered `workflow.num_EARs + count`. -/
def initActionsScan (iterID numEARs : Nat) :
    Nat → Nat → List (List RuleEval) → Except Unit (List EARRec)
  | _, _, [] => .ok []
  | actIdx, count, rules :: rest =>
    match allRules rules with
    | .error e => .error e
    | .ok true =>
      (initActionsScan iterID numEARs (actIdx + 1) (count + 1) rest).map
        (fun l => ⟨iterID, actIdx, numEARs + count⟩ :: l)
    | .ok false => initActionsScan iterID numEARs (actIdx + 1) count rest

/-- `_initialise_element_iter_EARs`: the `add_EAR` store calls happen only
after the action scan completes ("only assign this at the end"), so an
`UnsetParameterDataError` raised mid-scan adds nothing. -/
def initialiseIterEARs (numEARs : Nat) (it : ElemIter) :
    Except Unit (List EARRec) :=
  initActionsScan it.id_ numEARs 0 0 it.ruleEvals

/-- `initialise_EARs`: walk the iterations in traversal order, skipping the
already-initialised ones; a raised `UnsetParameterDataError` is swallowed
(`except UnsetParameterDataError: pass`) and the iteration is left for the
next pass; returns the ids of the iterations initialised in this pass and
the EAR records added to the store. -/
def initialise_EARs (numEARs : Nat) :
    List ElemIter → List Nat × List EARRec
  | [] => ([], [])
  | it :: rest =>
    if it.EARs_initialised then initialise_EARs numEARs rest
    else
      match initialiseIterEARs numEARs it with
      | .ok ears =>
        let (ids, recs) := initialise_EARs (numEARs + ears.length) rest
        (it.id_ :: ids, ears ++ recs)
      | .error _ => initialise_EARs numEARs rest

/-- The `EARs_initialised` state visible after the pass: the stores mark
the flag true exactly for iterations that have pending EARs (the commit
sets `EARs_initialised = True` for them, and reads report it true whenever
pending EARs exist for the iteration). -/
def flagAfter (pend : List EARRec) (it : ElemIter) : Bool :=
  it.EARs_initialised || pend.any (fun e => e.elem_iter_ID = it.id_)

lemma isOkE_map {α β : Type} (f : α → β) (e : Except Unit α) :
    isOkE (e.map f) = isOkE e := by
  cases e <;> rfl

lemma initActionsScan_isOk_indep (rules : List (List RuleEval))
    (iterID : Nat) : ∀ n a c n2 a2 c2,
    isOkE (initActionsScan iterID n a c rules) =
      isOkE (initActionsScan iterID n2 a2 c2 rules) := by
  induction rules with
  | nil => intro n a c n2 a2 c2; rfl
  | cons rl rest ih =>
    intro n a c n2 a2 c2
    simp only [initActionsScan]
    cases hal : allRules rl with
    | error e => rfl
    | ok b =>
      cases b with
      | false => exact ih n (a + 1) c n2 (a2 + 1) c2
      | true =>
        rw [isOkE_map, isOkE_map]
        exact ih n (a + 1) (c + 1) n2 (a2 + 1) (c2 + 1)

lemma initActionsScan_ears (rules : List (List RuleEval)) :
    ∀ iterID n a c l, initActionsScan iterID n a c rules = .ok l →
      ∀ e ∈ l, e.elem_iter_ID = iterID := by
  induction rules with
  | nil =>
    intro iterID n a c l hl e he
    simp only [initActionsScan] at hl
    cases hl
    simp at he
  | cons rl rest ih =>
    intro iterID n a c l hl e he
    simp only [initActionsScan] at hl
    cases hal : allRules rl with
    | error er => rw [hal] at hl; cases hl
    | ok b =>
      rw [hal] at hl
      cases b with
      | false => exact ih iterID n (a + 1) c l hl e he
      | true =>
        cases hs : initActionsScan iterID n (a + 1) (c + 1) rest with
        | error er => rw [hs] at hl; cases hl
        | ok l2 =>
          rw [hs] at hl
          simp only [Except.map] at hl
          cases hl
          rcases List.mem_cons.mp he with rfl | he2
          · rfl
          · exact ih iterID n (a + 1) (c + 1) l2 hs e he2

lemma initialiseIterEARs_ears (n : Nat) (it : ElemIter) (l : List EARRec)
    (hl : initialiseIterEARs n it = .ok l) :
    ∀ e ∈ l, e.elem_iter_ID = it.id_ :=
  initActionsScan_ears it.ruleEvals it.id_ n 0 0 l hl

lemma initialiseIterEARs_isOk_indep (n n2 : Nat) (it : ElemIter) :
    isOkE (initialiseIterEARs n it) = isOkE (initialiseIterEARs n2 it) :=
  initActionsScan_isOk_indep it.ruleEvals it.id_ n 0 0 n2 0 0

lemma initialise_EARs_ids (iters : List ElemIter) : ∀ n,
    (initialise_EARs n iters).1 =
      (iters.filter (fun j => !j.EARs_initialised &&
        isOkE (initialiseIterEARs 0 j))).map (fun j => j.id_) := by
  induction iters with
  | nil => intro n; rfl
  | cons it rest ih =>
    intro n
    simp only [initialise_EARs]
    cases hflag : it.EARs_initialised with
    | true => simp [List.filter_cons, hflag, ih n]
    | false =>
      cases hres : initialiseIterEARs n it with
      | ok ears =>
        have hok : isOkE (initialiseIterEARs 0 it) = true := by
          rw [initialiseIterEARs_isOk_indep 0 n it, hres]; rfl
        simp [List.filter_cons, hflag, hok, ih (n + ears.length)]
      | error e =>
        have hok : isOkE (initialiseIterEARs 0 it) = false := by
          rw [initialiseIterEARs_isOk_indep 0 n it, hres]; rfl
        simp [List.filter_cons, hflag, hok, ih n]

lemma initialise_EARs_ears (iters : List ElemIter) : ∀ n,
    ∀ e ∈ (initialise_EARs n iters).2, ∃ j ∈ iters,
      j.EARs_initialised = false ∧ e.elem_iter_ID = j.id_ ∧
      isOkE (initialiseIterEARs 0 j) = true := by
  induction iters with
  | nil => intro n e he; simp [initialise_EARs] at he
  | cons it rest ih =>
    intro n e he
    simp only [initialise_EARs] at he
    cases hflag : it.EARs_initialised with
    | true =>
      rw [hflag] at he
      simp only [if_true] at he
      obtain ⟨j, hj, h1, h2, h3⟩ := ih n e he
      exact ⟨j, List.mem_cons_of_mem _ hj, h1, h2, h3⟩
    | false =>
      rw [hflag] at he
      simp only [Bool.false_eq_true, if_false] at he
      cases hres : initialiseIterEARs n it with
      | ok ears =>
        rw [hres] at he
        simp only at he
        rcases List.mem_append.mp he with he1 | he2
        · refine ⟨it, List.mem_cons_self _ _, hflag,
            initialiseIterEARs_ears n it ears hres e he1, ?_⟩
          rw [initialiseIterEARs_isOk_indep 0 n it, hres]; rfl
        · obtain ⟨j, hj, h1, h2, h3⟩ := ih (n + ears.length) e he2
          exact ⟨j, List.mem_cons_of_mem _ hj, h1, h2, h3⟩
      | error er =>
        rw [hres] at he
        simp only at he
        obtain ⟨j, hj, h1, h2, h3⟩ := ih n e he
        exact ⟨j, List.mem_cons_of_mem _ hj, h1, h2, h3⟩

/-- C9: if evaluating an action rule for an iteration raises
`UnsetParameterDataError`, then that pass of `initialise_EARs` adds no EARs
to the store for that iteration, the iteration's `EARs_initialised` state
stays false, and the exception is not propagated: the call returns
normally, listing exactly the iteration ids that were successfully
initialised. -/
theorem initialise_EARs_defers_unset (numEARs : Nat)
    (iters : List ElemIter) (it : ElemIter) (hmem : it ∈ iters)
    (hflag : it.EARs_initialised = false)
    (hnodup : (iters.map (fun i => i.id_)).Nodup)
    (herr : initialiseIterEARs 0 it = .error ()) :
    it.id_ ∉ (initialise_EARs numEARs iters).1 ∧
    (∀ e ∈ (initialise_EARs numEARs iters).2, e.elem_iter_ID ≠ it.id_) ∧
    flagAfter (initialise_EARs numEARs iters).2 it = false ∧
    (initialise_EARs numEARs iters).1 =
      (iters.filter (fun j => !j.EARs_initialised &&
        isOkE (initialiseIterEARs 0 j))).map (fun j => j.id_) := by
  have hinj := List.inj_on_of_nodup_map hnodup
  have hitko : isOkE (initialiseIterEARs 0 it) = false := by
    rw [herr]; rfl
  have hne : ∀ e ∈ (initialise_EARs numEARs iters).2,
      e.elem_iter_ID ≠ it.id_ := by
    intro e he hcontra
    obtain ⟨j, hj, h1, h2, h3⟩ := initialise_EARs_ears iters numEARs e he
    have : j = it := hinj hj hmem (by rw [← h2, hcontra])
    rw [this] at h3
    rw [hitko] at h3
    cases h3
  refine ⟨?_, hne, ?_, initialise_EARs_ids iters numEARs⟩
  · intro hid
    rw [initialise_EARs_ids iters numEARs] at hid
    obtain ⟨j, hj, hjid⟩ := List.mem_map.mp hid
    have hjmem : j ∈ iters := List.mem_of_mem_filter hj
    have hjp := List.of_mem_filter hj
    have : j = it := hinj hjmem hmem hjid
    rw [this] at hjp
    rw [hflag, hitko] at hjp
    cases hjp
  · rw [flagAfter, hflag]
    simp only [Bool.false_or]
    rw [List.any_eq_false]
    intro e he
    simpa using hne e he

/-- A concrete iteration whose single action's rule evaluates true. -/
def iterOkW : ElemIter := ⟨0, false, [[Except.ok true]]⟩

/-- A concrete iteration whose first action rule raises
`UnsetParameterDataError`. -/
def iterErrW : ElemIter := ⟨1, false, [[Except.error ()], [Except.ok true]]⟩

/-- C9 witness: the deferral theorem applied to a concrete two-iteration
workflow where the second iteration's rule evaluation raises. -/
theorem initialise_EARs_defers_unset_witness :
    iterErrW.id_ ∉ (initialise_EARs 0 [iterOkW, iterErrW]).1 ∧
    (∀ e ∈ (initialise_EARs 0 [iterOkW, iterErrW]).2,
      e.elem_iter_ID ≠ iterErrW.id_) ∧
    flagAfter (initialise_EARs 0 [iterOkW, iterErrW]).2 iterErrW = false ∧
    (initialise_EARs 0 [iterOkW, iterErrW]).1 =
      ([iterOkW, iterErrW].filter (fun j => !j.EARs_initialised &&
        isOkE (initialiseIterEARs 0 j))).map (fun j => j.id_) :=
  initialise_EARs_defers_unset 0 [iterOkW, iterErrW] iterErrW
    (List.mem_cons_of_mem _ (List.mem_cons_self _ _)) rfl (by decide) rfl

end Hpcflow

namespace Hpcflow

/-! ## Transactional persistence: `batch_update`

Embedding of `Workflow.batch_update`, `Workflow._reject_pending` and
`Workflow._accept_pending`/`_reset_pending`
(`src/hpcflow/sdk/core/workflow.py`), over a store exposing the
pending/commit/reject protocol of the persistence layer (`commit_pending`
and `is_modified_on_disk` follow `src/hpcflow/sdk/persistence/json.py`; the
store base class that holds the pending buckets and implements
`reject_pending`, `clear_pending`, `has_pending` and the in-batch `save`
no-op is not part of the provided sources and is modelled from the spec,
section 4.4: while the scope is active all structural mutations are
buffered in pending buckets keyed by the kind of change, and on reject all
pending buckets are discarded; the Zarr backend's deletion of its own
speculatively written chunks realises the same abstract discard).

Payloads are abstracted as `Nat`; `get_md5_hash` comparison is modelled as
structural equality of documents.  The body of a scope is a list of
operations mirroring the mutators reachable inside a batch (`_add_task`
buffers a store task, appends an in-memory `WorkflowTask` and records its
index in `Workflow._pending`; element sets, iterations, EARs and
parameters are buffered in the store's buckets; loops and submissions
mirror tasks); `Op.fail` is an operation that raises.
-/

/-- The on-disk document: one collection per kind of structural data. -/
structure StoreDoc where
  tasks : List Nat
  elements : List Nat
  iterations : List Nat
  EARs : List Nat
  loops : List Nat
  parameters : List Nat
  submissions : List Nat
deriving DecidableEq, Repr

/-- The store's pending buckets, keyed by the kind of change. -/
structure StorePending where
  tasks : List Nat
  elements : List Nat
  iterations : List Nat
  EARs : List Nat
  loops : List Nat
  parameters : List Nat
  submissions : List Nat
deriving DecidableEq, Repr

/-- All buckets empty. -/
def emptyPending : StorePending := ⟨[], [], [], [], [], [], []⟩

/-- `PersistentStore.has_pending`: some bucket is non-empty. -/
def StorePending.hasAny (p : StorePending) : Bool :=
  !(p.tasks.isEmpty && p.elements.isEmpty && p.iterations.isEmpty &&
    p.EARs.isEmpty && p.loops.isEmpty && p.parameters.isEmpty &&
    p.submissions.isEmpty)

/-- `commit_pending`: flush every pending bucket to the document in the
fixed dependency-respecting order (tasks, then elements, iterations, EARs,
loops, parameters, submissions). -/
def commitDoc (d : StoreDoc) (p : StorePending) : StoreDoc :=
  { tasks := d.tasks ++ p.tasks
    elements := d.elements ++ p.elements
    iterations := d.iterations ++ p.iterations
    EARs := d.EARs ++ p.EARs
    loops := d.loops ++ p.loops
    parameters := d.parameters ++ p.parameters
    submissions := d.submissions ++ p.submissions }

/-- The persistent store: the on-disk document, the copy cached by
`cached_load` (the basis of the modification check), and the pending
buckets. -/
structure PStore where
  disk : StoreDoc
  loaded : Option StoreDoc
  pending : StorePending
deriving DecidableEq, Repr

/-- `is_modified_on_disk`: with a cached load, compare the hash of the
document now on disk against the cached copy (md5 equality modelled as
document equality); without a cached copy there is nothing to compare. -/
def PStore.is_modified_on_disk (s : PStore) : Bool :=
  match s.loaded with
  | some l => decide (s.disk ≠ l)
  | none => false

/-- `PersistentStore.reject_pending` (modelled from the spec): discard all
pending buckets. -/
def PStore.rejectPending (s : PStore) : PStore :=
  { s with pending := emptyPending }

/-- An in-memory `WorkflowTask`: committed element sets plus its
speculative `_pending_element_sets`. -/
structure TaskMem where
  payload : Nat
  elementSets : List Nat
  pendingElementSets : List Nat
deriving DecidableEq, Repr

/-- `WorkflowTask._reset_pending_element_sets`. -/
def TaskMem.resetPending (t : TaskMem) : TaskMem :=
  { t with pendingElementSets := [] }

/-- `WorkflowTask._accept_pending_element_sets`. -/
def TaskMem.acceptPending (t : TaskMem) : TaskMem :=
  { t with elementSets := t.elementSets ++ t.pendingElementSets,
           pendingElementSets := [] }

/-- An in-memory `WorkflowLoop`: committed and speculative numbers of
added iterations (modelled from the spec: on reject every loop object
forgets its speculative additions). -/
structure LoopMem where
  payload : Nat
  numAddedIters : Nat
  pendingNumAddedIters : Nat
deriving DecidableEq, Repr

/-- `WorkflowLoop._reset_pending_num_added_iters`. -/
def LoopMem.resetPending (l : LoopMem) : LoopMem :=
  { l with pendingNumAddedIters := l.numAddedIters }

/-- `WorkflowLoop._accept_pending_num_added_iters`. -/
def LoopMem.acceptPending (l : LoopMem) : LoopMem :=
  { l with numAddedIters := l.pendingNumAddedIters }

/-- The in-memory workflow: the store, the task/loop/submission objects,
and `Workflow._pending` (the indices of the objects added during the
current batch). -/
structure WorkflowMem where
  store : PStore
  tasks : List TaskMem
  loops : List LoopMem
  submissions : List Nat
  pendingTaskIdx : List Nat
  pendingLoopIdx : List Nat
  pendingSubIdx : List Nat
deriving DecidableEq, Repr

/-- In-place modification of a list entry (a Python list item mutation). -/
def modifyAt {α : Type} : List α → Nat → (α → α) → List α
  | [], _, _ => []
  | x :: xs, 0, f => f x :: xs
  | x :: xs, n + 1, f => x :: modifyAt xs n f

/-- `Workflow._reject_pending`:'s removal loop: pop the recorded indices in
reverse recording order. -/
def removeIdxRev {α : Type} (l : List α) (idx : List Nat) : List α :=
  idx.reverse.foldl (fun acc i => acc.eraseIdx i) l

/-- The exception branch of `batch_update`: discard the store's pending
buckets, make every task and loop forget its speculative additions, then
pop the objects recorded in `Workflow._pending` and reset it. -/
def rejectAll (w : WorkflowMem) : WorkflowMem :=
  { store := w.store.rejectPending
    tasks := removeIdxRev (w.tasks.map TaskMem.resetPending) w.pendingTaskIdx
    loops := removeIdxRev (w.loops.map LoopMem.resetPending) w.pendingLoopIdx
    submissions := removeIdxRev w.submissions w.pendingSubIdx
    pendingTaskIdx := []
    pendingLoopIdx := []
    pendingSubIdx := [] }

/-- The success branch of `batch_update`: accept the tasks' and loops'
speculative additions, commit every pending bucket to disk, clear the
pending structures. -/
def acceptAll (w : WorkflowMem) : WorkflowMem :=
  { store := { disk := commitDoc w.store.disk w.store.pending
               loaded := w.store.loaded
               pending := emptyPending }
    tasks := w.tasks.map TaskMem.acceptPending
    loops := w.loops.map LoopMem.acceptPending
    submissions := w.submissions
    pendingTaskIdx := []
    pendingLoopIdx := []
    pendingSubIdx := [] }

/-- The mutators reachable inside a batch scope, plus a raising
operation. -/
inductive BatchOp where
  | addTask (v : Nat)
  | addElementSet (taskIdx : Nat) (v : Nat)
  | addIteration (v : Nat)
  | addEAR (v : Nat)
  | addLoop (v : Nat)
  | addLoopIteration (loopIdx : Nat)
  | addParameter (v : Nat)
  | addSubmission (v : Nat)
  | fail (msg : String)

/-- One buffered mutation: every `add_*` writes only pending state (the
store's buckets, the task/loop speculative fields, and the recorded
indices); nothing touches the on-disk document while the batch is open. -/
def applyOp (w : WorkflowMem) : BatchOp → Except (String × WorkflowMem) WorkflowMem
  | .addTask v => .ok { w with
      tasks := w.tasks ++ [⟨v, [], []⟩]
      pendingTaskIdx := w.pendingTaskIdx ++ [w.tasks.length]
      store := { w.store with pending :=
        { w.store.pending with tasks := w.store.pending.tasks ++ [v] } } }
  | .addElementSet tIdx v => .ok { w with
      tasks := modifyAt w.tasks tIdx (fun t =>
        { t with pendingElementSets := t.pendingElementSets ++ [v] })
      store := { w.store with pending :=
        { w.store.pending with elements := w.store.pending.elements ++ [v] } } }
  | .addIteration v => .ok { w with
      store := { w.store with pending :=
        { w.store.pending with iterations := w.store.pending.iterations ++ [v] } } }
  | .addEAR v => .ok { w with
      store := { w.store with pending :=
        { w.store.pending with EARs := w.store.pending.EARs ++ [v] } } }
  | .addLoop v => .ok { w with
      loops := w.loops ++ [⟨v, 0, 0⟩]
      pendingLoopIdx := w.pendingLoopIdx ++ [w.loops.length]
      store := { w.store with pending :=
        { w.store.pending with loops := w.store.pending.loops ++ [v] } } }
  | .addLoopIteration lIdx => .ok { w with
      loops := modifyAt w.loops lIdx (fun l =>
        { l with pendingNumAddedIters := l.pendingNumAddedIters + 1 })
      store := { w.store with pending :=
        { w.store.pending with iterations := w.store.pending.iterations ++ [lIdx] } } }
  | .addParameter v => .ok { w with
      store := { w.store with pending :=
        { w.store.pending with parameters := w.store.pending.parameters ++ [v] } } }
  | .addSubmission v => .ok { w with
      submissions := w.submissions ++ [v]
      pendingSubIdx := w.pendingSubIdx ++ [w.submissions.length]
      store := { w.store with pending :=
        { w.store.pending with submissions := w.store.pending.submissions ++ [v] } } }
  | .fail msg => .error (msg, w)

/-- Run the scope body; an exception carries the state at the raise
point. -/
def runOps : List BatchOp → WorkflowMem → Except (String × WorkflowMem) WorkflowMem
  | [], w => .ok w
  | op :: rest, w =>
    match applyOp w op with
    | .ok w2 => runOps rest w2
    | .error e => .error e

/-- `Workflow.batch_update` (outermost scope): on an exception inside the
body, reject everything and re-raise; on success, skip the commit when
nothing is pending, raise `WorkflowBatchUpdateFailedError` before
committing anything when the on-disk document was modified since it was
loaded, and otherwise accept and commit. -/
def batch_update (ops : List BatchOp) (w : WorkflowMem) :
    Except (String × WorkflowMem) WorkflowMem :=
  match runOps ops w with
  | .error (e, w1) => .error (e, rejectAll w1)
  | .ok w1 =>
    if w1.store.pending.hasAny then
      if w1.store.is_modified_on_disk then
        .error ("WorkflowBatchUpdateFailedError", w1)
      else .ok (acceptAll w1)
    else .ok w1

/-- No pending state anywhere: the invariant holding outside any batch. -/
def pendingEmpty (w : WorkflowMem) : Prop :=
  w.store.pending = emptyPending ∧
  w.pendingTaskIdx = [] ∧ w.pendingLoopIdx = [] ∧ w.pendingSubIdx = [] ∧
  (∀ t ∈ w.tasks, t.pendingElementSets = []) ∧
  (∀ l ∈ w.loops, l.pendingNumAddedIters = l.numAddedIters)

instance (w : WorkflowMem) : Decidable (pendingEmpty w) := by
  unfold pendingEmpty
  infer_instance

end Hpcflow

namespace Hpcflow

lemma eraseIdx_concat {α : Type} (l : List α) (x : α) :
    (l ++ [x]).eraseIdx l.length = l := by
  induction l with
  | nil => rfl
  | cons a t ih => simp [List.eraseIdx, ih]

lemma removeIdxRev_concat {α : Type} (l : List α) (x : α) (idx : List Nat) :
    removeIdxRev (l ++ [x]) (idx ++ [l.length]) = removeIdxRev l idx := by
  simp only [removeIdxRev, List.reverse_append, List.reverse_cons,
    List.reverse_nil, List.nil_append, List.singleton_append, List.foldl_cons]
  rw [eraseIdx_concat]

lemma map_modifyAt {α : Type} (l : List α) (i : Nat) (f g : α → α)
    (h : ∀ x, g (f x) = g x) : (modifyAt l i f).map g = l.map g := by
  induction l generalizing i with
  | nil => rfl
  | cons x xs ih =>
    cases i with
    | zero => simp [modifyAt, h]
    | succ n => simp [modifyAt, ih]

lemma rejectAll_id (w : WorkflowMem) (h : pendingEmpty w) : rejectAll w = w := by
  obtain ⟨store, tasks, loops, subs, pt, pl, ps⟩ := w
  obtain ⟨hsp, ht, hl, hs, htask, hloop⟩ := h
  simp only at hsp ht hl hs htask hloop
  subst ht hl hs
  have hstore : PStore.rejectPending store = store := by
    obtain ⟨d, ld, p⟩ := store
    simp only at hsp
    subst hsp
    rfl
  have htasks : tasks.map TaskMem.resetPending = tasks := by
    have hid : ∀ t ∈ tasks, TaskMem.resetPending t = t := by
      intro t htm
      obtain ⟨a, b, c⟩ := t
      have hc := htask _ htm
      simp only at hc
      subst hc
      rfl
    calc tasks.map TaskMem.resetPending = tasks.map id :=
          List.map_congr_left hid
      _ = tasks := List.map_id _
  have hloops : loops.map LoopMem.resetPending = loops := by
    have hid : ∀ l ∈ loops, LoopMem.resetPending l = l := by
      intro l hlm
      obtain ⟨a, b, c⟩ := l
      have hc := hloop _ hlm
      simp only at hc
      subst hc
      rfl
    calc loops.map LoopMem.resetPending = loops.map id :=
          List.map_congr_left hid
      _ = loops := List.map_id _
  simp only [rejectAll, removeIdxRev, List.reverse_nil, List.foldl_nil,
    hstore, htasks, hloops]

lemma applyOp_reject (op : BatchOp) (w w2 : WorkflowMem)
    (h : applyOp w op = .ok w2) : rejectAll w2 = rejectAll w := by
  cases op with
  | addTask v =>
    simp only [applyOp, Except.ok.injEq] at h
    subst h
    have hcomp : removeIdxRev
        ((w.tasks ++ [TaskMem.mk v [] []]).map TaskMem.resetPending)
        (w.pendingTaskIdx ++ [w.tasks.length]) =
        removeIdxRev (w.tasks.map TaskMem.resetPending) w.pendingTaskIdx := by
      rw [List.map_append, List.map_cons, List.map_nil]
      have hlen : w.tasks.length =
          (w.tasks.map TaskMem.resetPending).length :=
        (List.length_map _ _).symm
      rw [hlen]
      exact removeIdxRev_concat _ _ _
    simp only [rejectAll, PStore.rejectPending, hcomp]
  | addElementSet tIdx v =>
    simp only [applyOp, Except.ok.injEq] at h
    subst h
    have hcomp : (modifyAt w.tasks tIdx (fun t =>
        { t with pendingElementSets := t.pendingElementSets ++ [v] })).map
          TaskMem.resetPending = w.tasks.map TaskMem.resetPending :=
      map_modifyAt w.tasks tIdx _ TaskMem.resetPending (fun t => rfl)
    simp only [rejectAll, PStore.rejectPending, hcomp]
  | addIteration v =>
    simp only [applyOp, Except.ok.injEq] at h
    subst h
    rfl
  | addEAR v =>
    simp only [applyOp, Except.ok.injEq] at h
    subst h
    rfl
  | addLoop v =>
    simp only [applyOp, Except.ok.injEq] at h
    subst h
    have hcomp : removeIdxRev
        ((w.loops ++ [LoopMem.mk v 0 0]).map LoopMem.resetPending)
        (w.pendingLoopIdx ++ [w.loops.length]) =
        removeIdxRev (w.loops.map LoopMem.resetPending) w.pendingLoopIdx := by
      rw [List.map_append, List.map_cons, List.map_nil]
      have hlen : w.loops.length =
          (w.loops.map LoopMem.resetPending).length :=
        (List.length_map _ _).symm
      rw [hlen]
      exact removeIdxRev_concat _ _ _
    simp only [rejectAll, PStore.rejectPending, hcomp]
  | addLoopIteration lIdx =>
    simp only [applyOp, Except.ok.injEq] at h
    subst h
    have hcomp : (modifyAt w.loops lIdx (fun l =>
        { l with pendingNumAddedIters := l.pendingNumAddedIters + 1 })).map
          LoopMem.resetPending = w.loops.map LoopMem.resetPending :=
      map_modifyAt w.loops lIdx _ LoopMem.resetPending (fun l => rfl)
    simp only [rejectAll, PStore.rejectPending, hcomp]
  | addParameter v =>
    simp only [applyOp, Except.ok.injEq] at h
    subst h
    rfl
  | addSubmission v =>
    simp only [applyOp, Except.ok.injEq] at h
    subst h
    have hcomp : removeIdxRev (w.submissions ++ [v])
        (w.pendingSubIdx ++ [w.submissions.length]) =
        removeIdxRev w.submissions w.pendingSubIdx :=
      removeIdxRev_concat _ _ _
    simp only [rejectAll, PStore.rejectPending, hcomp]
  | fail msg =>
    simp only [applyOp] at h
    exact Except.noConfusion h

lemma applyOp_error (op : BatchOp) (w : WorkflowMem) (e : String)
    (w1 : WorkflowMem) (h : applyOp w op = .error (e, w1)) : w1 = w := by
  cases op <;> simp [applyOp] at h
  exact h.2.symm

lemma runOps_reject (ops : List BatchOp) : ∀ w e w1,
    runOps ops w = .error (e, w1) → rejectAll w1 = rejectAll w := by
  induction ops with
  | nil =>
    intro w e w1 h
    exact Except.noConfusion h
  | cons op rest ih =>
    intro w e w1 h
    simp only [runOps] at h
    cases hap : applyOp w op with
    | ok w2 =>
      rw [hap] at h
      simp only at h
      rw [ih w2 e w1 h]
      exact applyOp_reject op w w2 hap
    | error er =>
      rw [hap] at h
      simp only at h
      cases h
      rw [applyOp_error op w e w1 hap]

lemma applyOp_disk (op : BatchOp) (w w2 : WorkflowMem)
    (h : applyOp w op = .ok w2) :
    w2.store.disk = w.store.disk ∧ w2.store.loaded = w.store.loaded := by
  cases op <;> simp only [applyOp, Except.ok.injEq] at h
  case fail msg => exact Except.noConfusion h
  all_goals subst h
  all_goals exact ⟨rfl, rfl⟩

lemma runOps_disk (ops : List BatchOp) : ∀ w w1, runOps ops w = .ok w1 →
    w1.store.disk = w.store.disk ∧ w1.store.loaded = w.store.loaded := by
  induction ops with
  | nil =>
    intro w w1 h
    cases h
    exact ⟨rfl, rfl⟩
  | cons op rest ih =>
    intro w w1 h
    simp only [runOps] at h
    cases hap : applyOp w op with
    | ok w2 =>
      rw [hap] at h
      simp only at h
      obtain ⟨hd2, hl2⟩ := applyOp_disk op w w2 hap
      obtain ⟨hd1, hl1⟩ := ih w2 w1 h
      exact ⟨hd1.trans hd2, hl1.trans hl2⟩
    | error er =>
      rw [hap] at h
      exact Except.noConfusion h

/-- C2: if any exception is raised inside a `batch_update` scope on a
workflow with no pending state, the scope re-raises that exception and the
workflow afterwards is exactly the workflow it was before the batch began:
all pending buckets are discarded, every in-memory speculative addition is
forgotten, and nothing buffered during the batch reaches the on-disk
store. -/
theorem batch_update_rolls_back (ops : List BatchOp) (w : WorkflowMem)
    (hp : pendingEmpty w) (e : String) (w1 : WorkflowMem)
    (hrun : runOps ops w = .error (e, w1)) :
    batch_update ops w = .error (e, w) := by
  simp only [batch_update, hrun]
  rw [runOps_reject ops w e w1 hrun, rejectAll_id w hp]

/-- A concrete workflow outside any batch: one committed task with one
element set, one loop, one submission, matching disk and cached copies. -/
def batchW0 : WorkflowMem :=
  ⟨⟨⟨[7], [], [], [], [], [], []⟩, some ⟨[7], [], [], [], [], [], []⟩,
    emptyPending⟩,
   [⟨7, [1], []⟩], [⟨3, 2, 2⟩], [9], [], [], []⟩

/-- A batch body that buffers a task, an element set and a parameter, then
raises. -/
def batchOpsW : List BatchOp :=
  [.addTask 5, .addElementSet 0 4, .addParameter 6, .fail "boom"]

/-- C2 witness: the rollback theorem applied at a concrete workflow and a
concrete failing batch body. -/
theorem batch_update_rolls_back_witness :
    batch_update batchOpsW batchW0 = Except.error ("boom", batchW0) :=
  batch_update_rolls_back batchOpsW batchW0 (by decide) "boom" _ rfl

/-- C7: if the on-disk document differs from the copy cached at load time
(another writer modified it out-of-band) and the batch body completes with
pending changes, `batch_update` raises `WorkflowBatchUpdateFailedError` at
commit time and commits none of the pending changes: the on-disk document
is exactly what it was when the batch body finished. -/
theorem batch_update_conflict (ops : List BatchOp) (w : WorkflowMem)
    (l : StoreDoc) (hload : w.store.loaded = some l)
    (hmod : w.store.disk ≠ l) (w1 : WorkflowMem)
    (hrun : runOps ops w = .ok w1)
    (hpend : w1.store.pending.hasAny = true) :
    batch_update ops w = .error ("WorkflowBatchUpdateFailedError", w1) ∧
    w1.store.disk = w.store.disk := by
  obtain ⟨hd, hl⟩ := runOps_disk ops w w1 hrun
  have hmod1 : w1.store.is_modified_on_disk = true := by
    simp only [PStore.is_modified_on_disk, hl, hload, hd]
    exact decide_eq_true hmod
  refine ⟨?_, hd⟩
  simp only [batch_update, hrun, hpend, hmod1, if_true]

/-- The cached copy of the document at load time. -/
def conflictLoaded : StoreDoc := ⟨[], [], [], [], [], [], []⟩

/-- The document as mutated on disk by another writer. -/
def conflictDisk : StoreDoc := ⟨[], [], [], [], [], [99], []⟩

/-- The stale in-memory workflow against which the batch runs. -/
def conflictW0 : WorkflowMem :=
  ⟨⟨conflictDisk, some conflictLoaded, emptyPending⟩, [], [], [], [], [], []⟩

/-- The state after buffering one parameter in the batch. -/
def conflictW1 : WorkflowMem :=
  ⟨⟨conflictDisk, some conflictLoaded,
    ⟨[], [], [], [], [], [5], []⟩⟩, [], [], [], [], [], []⟩

/-- C7 witness: the conflict theorem applied at a concrete stale workflow
and a batch that buffers one parameter. -/
theorem batch_update_conflict_witness :
    batch_update [BatchOp.addParameter 5] conflictW0 =
      Except.error ("WorkflowBatchUpdateFailedError", conflictW1) ∧
    conflictW1.store.disk = conflictW0.store.disk :=
  batch_update_conflict [BatchOp.addParameter 5] conflictW0 conflictLoaded
    rfl (by decide) conflictW1 rfl rfl

end Hpcflow
